import Mathlib

set_option maxHeartbeats 1000000
set_option maxRecDepth 4000

/-!
Shallow embedding of src/src/FileUtils.ts (file-utils processors: globRead,
readFolder, substitute, envsub, getFileFromFolder, unzipFile, gunzipFile).

Records and paths are modelled as lists of characters, Node buffers as lists
of bytes.  Each stage is embedded as a function producing the list of
observable actions it performs on its channels (pushes, end signals, log
calls, memory samples, pauses).  The host runtime's channel semantics follow
the spec's cooperative scheduling model: each registered handler runs to
completion, the consumer-close event of a channel fires at most once, and a
reader delivers no further data events after the stage has ended it.

External collaborators are abstracted as function parameters translated from
how the source calls them: the glob library is a function from a pattern to
the list of matching paths in match order; the filesystem is a function from
a path to an optional content (none models a rejected readFile, e.g. a
missing file or EISDIR when the path is a directory); AdmZip is a function
from a buffer to an optional list of entry buffers; zlib.gunzip is a function
from a buffer to an optional buffer; Buffer.toString is a decode function.
-/

namespace FileUtils

/-- Characters of a JavaScript string. -/
abbrev Str := List Char

/-- Bytes of a Node Buffer. -/
abbrev Buf := List Nat

/-- The character U+007B (opening curly brace). -/
def braceO : Char := Char.ofNat 123

/-- The character U+007D (closing curly brace). -/
def braceC : Char := Char.ofNat 125

/-- A record flowing through a channel: textual content or a raw byte buffer
(the TypeScript type is string | Buffer). -/
inductive Rec where
  | str (s : Str)
  | buf (b : Buf)
deriving DecidableEq, Repr

/-- Observable actions a stage performs: pushing a record on its output
channel, ending its output channel (writer.end), ending its input channel
(reader.end), the four logging levels used in the source, sampling
memoryUsage().heapUsed, and sleeping for a number of milliseconds. -/
inductive Action where
  | push (r : Rec)
  | endOutput
  | endInput
  | logInfo
  | logWarn
  | logError
  | logDebug
  | sample (bytes : Nat)
  | sleep (ms : Nat)
deriving DecidableEq, Repr

/-- Events delivered to a transform/expansion stage by the host runtime: a
data record from the input channel, the input channel's end event, and the
output channel's close (end) event raised by the consumer. -/
inductive Ev (α : Type) where
  | data (x : α)
  | inputEnd
  | consumerClose
deriving DecidableEq, Repr

/-- The flags a stage keeps about its two channels: writerClosed is the
stage's local boolean set by its writer.on end handler; readerEnded records
that the stage has called reader.end(), after which the input channel
delivers no further data events. -/
structure ChanState where
  writerClosed : Bool
  readerEnded : Bool
deriving DecidableEq, Repr

/-- Initial channel state of a freshly wired stage. -/
def chanInit : ChanState := ⟨false, false⟩

/-- Channel state after the stage observed the consumer close and ended its
own input (writerClosed = true, reader ended). -/
def closedChan : ChanState := ⟨true, true⟩

/-- The records pushed in a trace, in order. -/
def pushesOf (tr : List Action) : List Rec :=
  tr.filterMap fun a => match a with | .push r => some r | _ => none

/-- Errors thrown by per-record handlers: the TypeError raised by
String.prototype.replaceAll on a non-global RegExp, and a rejected
fs readFile. -/
inductive JsErr where
  | typeError
  | readError
deriving DecidableEq, Repr

/-- ECMA-262 GetSubstitution for a plain-string search value (no capture
groups, no named captures): in the replacement template, a dollar sign
followed by another dollar sign yields a dollar sign, followed by an
ampersand yields the matched text, followed by U+0060 (grave accent) yields
the portion of the original string preceding the match, followed by U+0027
(apostrophe) yields the portion following the match; any other dollar sign
(including one before a digit, since there are no captures, or before a
less-than sign, since named captures are undefined, or one ending the
template) is literal text. -/
def getSubstitution (matched before after : Str) : Str → Str
  | [] => []
  | c :: rest =>
    if c = '$' then
      match rest with
      | [] => ['$']
      | d :: rest2 =>
        if d = '$' then '$' :: getSubstitution matched before after rest2
        else if d = '&' then matched ++ getSubstitution matched before after rest2
        else if d = Char.ofNat 96 then before ++ getSubstitution matched before after rest2
        else if d = Char.ofNat 39 then after ++ getSubstitution matched before after rest2
        else '$' :: getSubstitution matched before after (d :: rest2)
    else c :: getSubstitution matched before after rest

/-- Scanner for String.prototype.replaceAll with a nonempty plain-string
search value p0 :: pt: scan left to right, replace each non-overlapping
occurrence with its GetSubstitution text, never rescanning the inserted
replacement (ECMA-262 22.1.3.20).  acc is the original text already consumed
(the preceding text of the current match site); the counter k is the number
of characters of the current match still to be consumed. -/
def replaceAllGo (p0 : Char) (pt rep : Str) : Str → Str → Nat → Str
  | _, [], _ => []
  | acc, c :: rest, k + 1 => replaceAllGo p0 pt rep (acc ++ [c]) rest k
  | acc, c :: rest, 0 =>
    if (p0 :: pt).isPrefixOf (c :: rest) then
      getSubstitution (p0 :: pt) acc (rest.drop pt.length) rep ++
        replaceAllGo p0 pt rep (acc ++ [c]) rest pt.length
    else
      c :: replaceAllGo p0 pt rep (acc ++ [c]) rest 0

/-- JavaScript String.prototype.replaceAll with the nonempty plain-string
search value p0 :: pt. -/
def replaceAllNE (p0 : Char) (pt rep : Str) (s : Str) : Str :=
  replaceAllGo p0 pt rep [] s 0

/-- The empty search value matches at every position of the string, so the
substitution text (with empty matched text, the consumed prefix as preceding
text and the remainder as following text) is inserted before every character
and at the end. -/
def jsReplaceAllEmpty (rep : Str) (acc : Str) : Str → Str
  | [] => getSubstitution [] acc [] rep
  | c :: rest =>
    getSubstitution [] acc (c :: rest) rep ++ c :: jsReplaceAllEmpty rep (acc ++ [c]) rest

/-- JavaScript String.prototype.replaceAll with a plain-string search value,
including the GetSubstitution treatment of dollar escapes in the
replacement. -/
def jsReplaceAll (pat rep s : Str) : Str :=
  match pat with
  | [] => jsReplaceAllEmpty rep [] s
  | p0 :: pt => replaceAllNE p0 pt rep s

/-- Whether pat occurs as a contiguous substring of s. -/
def occursIn (pat : Str) : Str → Bool
  | [] => pat.isEmpty
  | c :: rest => pat.isPrefixOf (c :: rest) || occursIn pat rest

/-- Per-record body of substitute: const reg = regexp ? new RegExp(source) :
source; x.replaceAll(reg, replace).  The RegExp is constructed with no
flags, and String.prototype.replaceAll throws a TypeError when its search
value is a RegExp whose flags do not contain g (ECMA-262 22.1.3.20 step
2.b), so in regexp mode every record handler throws and nothing is pushed. -/
def substituteHandler (source replace : Str) (regexp : Bool) (x : Str) : Except JsErr Str :=
  if regexp then Except.error JsErr.typeError
  else Except.ok (jsReplaceAll source replace x)

/-- Trace of the substitute stage from channel state s on a list of incoming
events.  data: if the stage already ended its reader no event is delivered,
otherwise the handler logs and pushes the replaced text (or throws in regexp
mode, pushing nothing).  inputEnd: writer.end() unless writerClosed.
consumerClose: log, set writerClosed, reader.end(). -/
def substituteRunFrom (source replace : Str) (regexp : Bool) (s : ChanState) : List (Ev Str) → List Action
  | [] => []
  | Ev.data x :: es =>
    if s.readerEnded then substituteRunFrom source replace regexp s es
    else
      (Action.logInfo :: (match substituteHandler source replace regexp x with
        | Except.ok y => [Action.push (Rec.str y)]
        | Except.error _ => [])) ++ substituteRunFrom source replace regexp s es
  | Ev.inputEnd :: es =>
    (if s.writerClosed then [] else [Action.endOutput]) ++ substituteRunFrom source replace regexp s es
  | Ev.consumerClose :: es =>
    Action.logInfo :: Action.endInput :: substituteRunFrom source replace regexp closedChan es

/-- Trace of the substitute stage from the initial state. -/
def substituteRun (source replace : Str) (regexp : Bool) (es : List (Ev Str)) : List Action :=
  substituteRunFrom source replace regexp chanInit es

/-- The placeholder text for an environment variable NAME, namely a dollar
sign, an opening brace, the name, and a closing brace. -/
def placeholder (k : Str) : Str := '$' :: braceO :: (k ++ [braceC])

/-- Per-record body of envsub: for each key of the environment table in key
order, if its value is truthy (a non-empty string), replace all occurrences
of the key's placeholder by the value in the accumulated text. -/
def envsubHandler (env : List (Str × Str)) (x : Str) : Str :=
  env.foldl (fun acc kv => if kv.2 = [] then acc else jsReplaceAll (placeholder kv.1) kv.2 acc) x

/-- Trace of the envsub stage from channel state s, with the same channel
plumbing as substitute. -/
def envsubRunFrom (env : List (Str × Str)) (s : ChanState) : List (Ev Str) → List Action
  | [] => []
  | Ev.data x :: es =>
    if s.readerEnded then envsubRunFrom env s es
    else Action.logInfo :: Action.push (Rec.str (envsubHandler env x)) :: envsubRunFrom env s es
  | Ev.inputEnd :: es =>
    (if s.writerClosed then [] else [Action.endOutput]) ++ envsubRunFrom env s es
  | Ev.consumerClose :: es =>
    Action.logInfo :: Action.endInput :: envsubRunFrom env closedChan es

/-- path.resolve on the configured folder path, abstracted as the identity
(the folder is taken as already absolute; resolution against the process
working directory is not modelled). -/
def resolveP (p : Str) : Str := p

/-- path.join of a folder path and a relative file name, modelled as POSIX
joining with a single separator. -/
def joinP (a b : Str) : Str := a ++ ('/' :: b)

/-- Trace and final error of the getFileFromFolder stage from channel state
s: each data record is a file name, resolved against the base folder and
read with fs readFile; a successful read logs and pushes the file's text,
a failed read rejects the handler and is not caught, so the invocation
stops with a readError and no further event is processed. -/
def getFileRunFrom (fs : Str → Option Str) (folderPath : Str) (s : ChanState) : List (Ev Str) → List Action × Option JsErr
  | [] => ([], none)
  | Ev.data name :: es =>
    if s.readerEnded then getFileRunFrom fs folderPath s es
    else
      match fs (joinP (resolveP folderPath) name) with
      | some file =>
        let r := getFileRunFrom fs folderPath s es
        (Action.logInfo :: Action.push (Rec.str file) :: r.1, r.2)
      | none => ([Action.logInfo], some JsErr.readError)
  | Ev.inputEnd :: es =>
    let r := getFileRunFrom fs folderPath s es
    ((if s.writerClosed then [] else [Action.endOutput]) ++ r.1, r.2)
  | Ev.consumerClose :: es =>
    let r := getFileRunFrom fs folderPath closedChan es
    (Action.logInfo :: Action.endInput :: r.1, r.2)

/-- outputAsBuffer ? entry : entry.toString(), with the UTF-8 decode of
Buffer.toString abstracted as a function parameter. -/
def toOutRec (decode : Buf → Str) (asBuffer : Bool) (b : Buf) : Rec :=
  if asBuffer then Rec.buf b else Rec.str (decode b)

/-- Per-record body of unzipFile: try to parse the buffer with AdmZip; on
success log and push every entry in archive order; on failure (the
constructor throws on a corrupt or non-zip buffer) log an error and the
exception, push nothing, end nothing. -/
def unzipHandle (parse : Buf → Option (List Buf)) (decode : Buf → Str) (asBuffer : Bool) (d : Buf) : List Action :=
  match parse d with
  | some entries => entries.flatMap (fun e => [Action.logInfo, Action.push (toOutRec decode asBuffer e)])
  | none => [Action.logError, Action.logDebug]

/-- Trace of the unzipFile stage from channel state s, with the same channel
plumbing as substitute. -/
def unzipRunFrom (parse : Buf → Option (List Buf)) (decode : Buf → Str) (asBuffer : Bool) (s : ChanState) : List (Ev Buf) → List Action
  | [] => []
  | Ev.data d :: es =>
    if s.readerEnded then unzipRunFrom parse decode asBuffer s es
    else unzipHandle parse decode asBuffer d ++ unzipRunFrom parse decode asBuffer s es
  | Ev.inputEnd :: es =>
    (if s.writerClosed then [] else [Action.endOutput]) ++ unzipRunFrom parse decode asBuffer s es
  | Ev.consumerClose :: es =>
    Action.logInfo :: Action.endInput :: unzipRunFrom parse decode asBuffer closedChan es

/-- Per-record body of gunzipFile: try to gunzip the buffer; on success log
and push the single decompressed record; on failure log the error and the
exception, push nothing, end nothing. -/
def gunzipHandle (gz : Buf → Option Buf) (decode : Buf → Str) (asBuffer : Bool) (d : Buf) : List Action :=
  match gz d with
  | some b => [Action.logInfo, Action.push (toOutRec decode asBuffer b)]
  | none => [Action.logError, Action.logDebug]

/-- Trace of the gunzipFile stage from channel state s, with the same
channel plumbing as substitute. -/
def gunzipRunFrom (gz : Buf → Option Buf) (decode : Buf → Str) (asBuffer : Bool) (s : ChanState) : List (Ev Buf) → List Action
  | [] => []
  | Ev.data d :: es =>
    if s.readerEnded then gunzipRunFrom gz decode asBuffer s es
    else gunzipHandle gz decode asBuffer d ++ gunzipRunFrom gz decode asBuffer s es
  | Ev.inputEnd :: es =>
    (if s.writerClosed then [] else [Action.endOutput]) ++ gunzipRunFrom gz decode asBuffer s es
  | Ev.consumerClose :: es =>
    Action.logInfo :: Action.endInput :: gunzipRunFrom gz decode asBuffer closedChan es

/-- The external world seen by globRead: the glob library (pattern to the
list of matching paths, in match order) and the filesystem (binary flag and
path to an optional content; none models a rejected readFile). -/
structure FS where
  globMatch : Str → List Str
  readF : Bool → Str → Option Rec

/-- Promise.all over readFile for every path: some list of contents when
every read succeeds, none as soon as any read rejects. -/
def readAll (f : Str → Option Rec) : List Str → Option (List Rec)
  | [] => some []
  | p :: ps =>
    match f p, readAll f ps with
    | some c, some cs => some (c :: cs)
    | _, _ => none

/-- The eager setup phase of globRead: resolve the pattern once, then read
every matched file fully into memory before the deferred start action is
returned. -/
def globReadSetup (fs : FS) (pattern : Str) (binary : Bool) : Option (List Rec) :=
  readAll (fs.readF binary) (fs.globMatch pattern)

/-- The deferred loop of globRead over the pre-read contents.  closedAt =
some k means the stage's writerClosed flag turns true when k loop iterations
have run; the loop checks the flag before each push and breaks (logging)
once it is set; after each push it waits for the configured delay. -/
def globLoop (wait : Nat) : List Rec → Option Nat → List Action
  | [], _ => []
  | _ :: _, some 0 => [Action.logInfo]
  | f :: rest, some (k + 1) => Action.push f :: Action.sleep wait :: globLoop wait rest (some k)
  | f :: rest, none => Action.push f :: Action.sleep wait :: globLoop wait rest none

/-- Full trace of globRead: a warning when the pattern matched nothing, one
info log per matched file issued while the eager reads start, then, only
when every read succeeded, the deferred loop followed by writer.end() when
closeOnEnd is set (writer.end is also called when the loop was stopped by
the consumer closing; signal-end on a closed channel is an idempotent
no-op).  When some read rejected, the setup itself rejects: the deferred
start action is never produced and nothing is pushed or ended. -/
def globReadTrace (fs : FS) (pattern : Str) (binary : Bool) (wait : Nat) (closeOnEnd : Bool) (closedAt : Option Nat) : List Action :=
  (if (fs.globMatch pattern).isEmpty then [Action.logWarn] else []) ++
  (fs.globMatch pattern).map (fun _ => Action.logInfo) ++
  (match globReadSetup fs pattern binary with
   | none => []
   | some files => globLoop wait files closedAt ++ (if closeOnEnd then [Action.endOutput] else []))

/-- The actions readFolder performs for one file before pushing it: the
processing info log, the memoryUsage().heapUsed sample, and, when the sample
exceeds maxMemory gibibytes (the configured number times 1024 * 1024 * 1024
bytes), a warning and a pause of pauseMs milliseconds. -/
def rfHead (mem : Nat → Nat) (maxMemory pauseMs i : Nat) : List Action :=
  Action.logInfo :: Action.sample (mem i) ::
    (if mem i > maxMemory * (1024 * 1024 * 1024) then [Action.logWarn, Action.sleep pauseMs] else [])

/-- The loop body of readFolder for one directory entry: after the head
actions, readFile the entry; a successful read pushes the text and
continues, a rejected read (a missing entry, or EISDIR because recursive
readdir also lists directories and readFile rejects on a directory) is not
caught, so the run stops with a failure. -/
def rfEntry (mem : Nat → Nat) (maxMemory pauseMs i : Nat) (e : Str × Option Str) (rest : List Action × Bool) : List Action × Bool :=
  match e.2 with
  | none => (rfHead mem maxMemory pauseMs i, false)
  | some txt => (rfHead mem maxMemory pauseMs i ++ Action.push (Rec.str txt) :: rest.1, rest.2)

/-- The loop of readFolder over the recursive directory listing (each entry
paired with its optional readFile result), with i the index used to sample
memory and closedAt as in globLoop: the loop checks writerClosed before each
entry and breaks (logging) once it is set.  The boolean is false when the
run was aborted by a rejected read. -/
def readFolderLoop (mem : Nat → Nat) (maxMemory pauseMs : Nat) :
    List (Str × Option Str) → Nat → Option Nat → List Action × Bool
  | [], _, _ => ([], true)
  | _ :: _, _, some 0 => ([Action.logInfo], true)
  | e :: rest, i, some (k + 1) =>
    rfEntry mem maxMemory pauseMs i e (readFolderLoop mem maxMemory pauseMs rest (i + 1) (some k))
  | e :: rest, i, none =>
    rfEntry mem maxMemory pauseMs i e (readFolderLoop mem maxMemory pauseMs rest (i + 1) none)

/-- Full trace of the deferred run of readFolder: the loop, then writer.end()
(which the source calls unconditionally after the loop, also when the loop
was broken by the consumer closing) unless the run was aborted by a rejected
read. -/
def readFolderTrace (entries : List (Str × Option Str)) (mem : Nat → Nat) (maxMemory pauseMs : Nat) (closedAt : Option Nat) : List Action × Bool :=
  ((readFolderLoop mem maxMemory pauseMs entries 0 closedAt).1 ++
    (if (readFolderLoop mem maxMemory pauseMs entries 0 closedAt).2 then [Action.endOutput] else []),
   (readFolderLoop mem maxMemory pauseMs entries 0 closedAt).2)

/-- The per-entry action blocks of a completed readFolder run starting at
index i: head actions, then the push of the entry's text. -/
def rfBlocks (mem : Nat → Nat) (maxMemory pauseMs : Nat) : List (Str × Option Str) → Nat → List Action
  | [], _ => []
  | e :: rest, i =>
    rfHead mem maxMemory pauseMs i ++ Action.push (Rec.str (e.2.getD [])) :: rfBlocks mem maxMemory pauseMs rest (i + 1)

/-- A memory probe that always reports 0 bytes used. -/
def memZero : Nat → Nat := fun _ => 0

/-- A memory probe that always reports 4 bytes used. -/
def memFour : Nat → Nat := fun _ => 4

/-- A memory probe that always reports 4 GiB used. -/
def memBig : Nat → Nat := fun _ => 4 * (1024 * 1024 * 1024)

/-- A world with two matched files carrying one-character contents. -/
def fsTwo : FS :=
  ⟨fun _ => [['a'], ['b']],
   fun _ p => if p = ['a'] then some (Rec.str ['A']) else some (Rec.str ['B'])⟩

/-- A world where the pattern matches no file. -/
def fsNone : FS := ⟨fun _ => [], fun _ _ => none⟩

/-- A world with one matched file whose read rejects. -/
def fsBad : FS := ⟨fun _ => [['a']], fun _ _ => none⟩

/-- A folder holding exactly one readable file named f. -/
def folderA : Str → Option Str :=
  fun p => if p = joinP (resolveP ['/', 'd']) ['f'] then some ['A'] else none

/-- An archive parser that rejects every buffer. -/
def noZip : Buf → Option (List Buf) := fun _ => none

/-- A gunzip that rejects every buffer. -/
def noGz : Buf → Option Buf := fun _ => none

/-- A decode function mapping every buffer to the empty text. -/
def decodeNil : Buf → Str := fun _ => []

theorem pushesOf_append (a b : List Action) : pushesOf (a ++ b) = pushesOf a ++ pushesOf b := by
  simp [pushesOf, List.filterMap_append]

theorem pushesOf_nil : pushesOf [] = [] := rfl

theorem pushesOf_push (r : Rec) (l : List Action) :
    pushesOf (Action.push r :: l) = r :: pushesOf l := rfl

theorem pushesOf_endOutput (l : List Action) : pushesOf (Action.endOutput :: l) = pushesOf l := rfl

theorem pushesOf_endInput (l : List Action) : pushesOf (Action.endInput :: l) = pushesOf l := rfl

theorem pushesOf_logInfo (l : List Action) : pushesOf (Action.logInfo :: l) = pushesOf l := rfl

theorem pushesOf_logWarn (l : List Action) : pushesOf (Action.logWarn :: l) = pushesOf l := rfl

theorem pushesOf_logError (l : List Action) : pushesOf (Action.logError :: l) = pushesOf l := rfl

theorem pushesOf_logDebug (l : List Action) : pushesOf (Action.logDebug :: l) = pushesOf l := rfl

theorem pushesOf_sample (n : Nat) (l : List Action) :
    pushesOf (Action.sample n :: l) = pushesOf l := rfl

theorem pushesOf_sleep (n : Nat) (l : List Action) :
    pushesOf (Action.sleep n :: l) = pushesOf l := rfl

theorem isPrefixOf_append_self (l t : Str) : l.isPrefixOf (l ++ t) = true := by
  induction l with
  | nil => cases t <;> rfl
  | cons c l ih =>
    show (c == c && l.isPrefixOf (l ++ t)) = true
    simp [ih]

theorem isPrefixOf_cons_neq (a b : Char) (l t : Str) (h : a ≠ b) :
    (a :: l).isPrefixOf (b :: t) = false := by
  show (a == b && l.isPrefixOf t) = false
  simp [h]

theorem replaceAllGo_skip (p0 : Char) (pt rep : Str) :
    ∀ l t acc : Str,
      replaceAllGo p0 pt rep acc (l ++ t) l.length = replaceAllGo p0 pt rep (acc ++ l) t 0 := by
  intro l
  induction l with
  | nil =>
    intro t acc
    rw [List.append_nil]
    rfl
  | cons c l ih =>
    intro t acc
    show replaceAllGo p0 pt rep (acc ++ [c]) (l ++ t) l.length =
      replaceAllGo p0 pt rep (acc ++ (c :: l)) t 0
    rw [ih t (acc ++ [c]), List.append_assoc]
    rfl

theorem replaceAllGo_head (p0 : Char) (pt rep acc s : Str) :
    replaceAllGo p0 pt rep acc ((p0 :: pt) ++ s) 0 =
      getSubstitution (p0 :: pt) acc s rep ++
        replaceAllGo p0 pt rep (acc ++ (p0 :: pt)) s 0 := by
  have hpre : (p0 :: pt).isPrefixOf (p0 :: (pt ++ s)) = true := isPrefixOf_append_self (p0 :: pt) s
  show replaceAllGo p0 pt rep acc (p0 :: (pt ++ s)) 0 = _
  simp only [replaceAllGo]
  rw [if_pos hpre, List.drop_left, replaceAllGo_skip p0 pt rep pt s (acc ++ [p0]),
    List.append_assoc]
  rfl

theorem replaceAllGo_not_occurs (p0 : Char) (pt rep : Str) :
    ∀ s acc : Str, occursIn (p0 :: pt) s = false → replaceAllGo p0 pt rep acc s 0 = s := by
  intro s
  induction s with
  | nil => intro acc _; rfl
  | cons c rest ih =>
    intro acc h
    simp only [occursIn, Bool.or_eq_false_iff] at h
    show replaceAllGo p0 pt rep acc (c :: rest) 0 = c :: rest
    simp only [replaceAllGo]
    rw [if_neg (by rw [h.1]; exact Bool.false_ne_true)]
    exact congrArg (c :: ·) (ih (acc ++ [c]) h.2)

theorem replaceAllNE_not_occurs (p0 : Char) (pt rep : Str) (s : Str)
    (h : occursIn (p0 :: pt) s = false) : replaceAllNE p0 pt rep s = s :=
  replaceAllGo_not_occurs p0 pt rep s [] h

theorem replaceAllGo_skip_front (p0 : Char) (pt rep : Str) :
    ∀ p t acc : Str, p0 ∉ p →
      replaceAllGo p0 pt rep acc (p ++ t) 0 =
        p ++ replaceAllGo p0 pt rep (acc ++ p) t 0 := by
  intro p
  induction p with
  | nil =>
    intro t acc _
    rw [List.append_nil]
    rfl
  | cons c p ih =>
    intro t acc h
    have hc : p0 ≠ c := fun he => h (he ▸ List.mem_cons_self p0 p)
    have hp : p0 ∉ p := fun hm => h (List.mem_cons_of_mem c hm)
    have hpre : (p0 :: pt).isPrefixOf (c :: (p ++ t)) = false :=
      isPrefixOf_cons_neq p0 c pt (p ++ t) hc
    show replaceAllGo p0 pt rep acc (c :: (p ++ t)) 0 =
      c :: (p ++ replaceAllGo p0 pt rep (acc ++ (c :: p)) t 0)
    simp only [replaceAllGo]
    rw [if_neg (by rw [hpre]; exact Bool.false_ne_true)]
    rw [ih t (acc ++ [c]) hp, List.append_assoc]
    rfl

theorem getSubstitution_no_dollar (matched before after : Str) :
    ∀ rep : Str, '$' ∉ rep → getSubstitution matched before after rep = rep := by
  intro rep
  induction rep with
  | nil => intro _; rfl
  | cons c rest ih =>
    intro h
    have hc : c ≠ '$' := fun he => h (he ▸ List.mem_cons_self c rest)
    have hr : '$' ∉ rest := fun hm => h (List.mem_cons_of_mem c hm)
    rw [getSubstitution.eq_def]
    simp only []
    rw [if_neg hc]
    exact congrArg (c :: ·) (ih hr)

theorem envsubHandler_untouched (env : List (Str × Str)) (x : Str)
    (h : ∀ kv ∈ env, kv.2 ≠ [] → occursIn (placeholder kv.1) x = false) :
    envsubHandler env x = x := by
  induction env with
  | nil => rfl
  | cons kv env ih =>
    have hx : (if kv.2 = [] then x else jsReplaceAll (placeholder kv.1) kv.2 x) = x := by
      by_cases hv : kv.2 = []
      · rw [if_pos hv]
      · rw [if_neg hv]
        exact replaceAllNE_not_occurs _ _ _ _ (h kv (List.mem_cons_self kv env) hv)
    show envsubHandler env (if kv.2 = [] then x else jsReplaceAll (placeholder kv.1) kv.2 x) = x
    rw [hx]
    exact ih (fun kv2 hm hv2 => h kv2 (List.mem_cons_of_mem kv hm) hv2)

theorem envsubHandler_replaces (k v p s : Str) (hv : v ≠ []) (hp : '$' ∉ p)
    (hs : occursIn (placeholder k) s = false) :
    envsubHandler [(k, v)] (p ++ placeholder k ++ s) =
      p ++ getSubstitution (placeholder k) p s v ++ s := by
  show (if v = [] then p ++ placeholder k ++ s
        else jsReplaceAll (placeholder k) v (p ++ placeholder k ++ s)) =
    p ++ getSubstitution (placeholder k) p s v ++ s
  rw [if_neg hv]
  show replaceAllGo '$' (braceO :: (k ++ [braceC])) v [] (p ++ placeholder k ++ s) 0 =
    p ++ getSubstitution (placeholder k) p s v ++ s
  simp only [List.append_assoc]
  rw [replaceAllGo_skip_front '$' (braceO :: (k ++ [braceC])) v p (placeholder k ++ s) [] hp]
  rw [List.nil_append]
  rw [show placeholder k ++ s = ('$' :: (braceO :: (k ++ [braceC]))) ++ s from rfl]
  rw [replaceAllGo_head '$' (braceO :: (k ++ [braceC])) v p s]
  rw [replaceAllGo_not_occurs '$' (braceO :: (k ++ [braceC])) v s
    (p ++ ('$' :: (braceO :: (k ++ [braceC])))) (by exact hs)]
  rfl

theorem envsubHandler_replaces_literal (k v p s : Str) (hv : v ≠ []) (hvd : '$' ∉ v)
    (hp : '$' ∉ p) (hs : occursIn (placeholder k) s = false) :
    envsubHandler [(k, v)] (p ++ placeholder k ++ s) = p ++ v ++ s := by
  rw [envsubHandler_replaces k v p s hv hp hs,
    getSubstitution_no_dollar (placeholder k) p s v hvd]

theorem pushesOf_mapLogInfo (l : List Str) : pushesOf (l.map fun _ => Action.logInfo) = [] := by
  induction l with
  | nil => rfl
  | cons p l ih => rw [List.map_cons, pushesOf_logInfo]; exact ih

theorem readAll_some (f : Str → Option Rec) (ps : List Str)
    (h : ∀ p ∈ ps, f p ≠ none) : readAll f ps ≠ none := by
  induction ps with
  | nil => simp [readAll]
  | cons p ps ih =>
    have hp : f p ≠ none := h p (List.mem_cons_self p ps)
    have hps := ih (fun q hq => h q (List.mem_cons_of_mem p hq))
    simp only [readAll]
    cases hfp : f p with
    | none => exact absurd hfp hp
    | some c =>
      cases hra : readAll f ps with
      | none => exact absurd hra hps
      | some cs => simp

theorem readAll_map (f : Str → Option Rec) (ps : List Str) :
    ∀ cs : List Rec, readAll f ps = some cs → cs.map some = ps.map f := by
  induction ps with
  | nil =>
    intro cs h
    simp only [readAll, Option.some_inj] at h
    subst h
    rfl
  | cons p ps ih =>
    intro cs h
    simp only [readAll] at h
    cases hfp : f p with
    | none => rw [hfp] at h; simp at h
    | some c =>
      rw [hfp] at h
      cases hra : readAll f ps with
      | none => rw [hra] at h; simp at h
      | some cs2 =>
        rw [hra] at h
        simp only [Option.some_inj] at h
        subst h
        rw [List.map_cons, List.map_cons, ih cs2 hra, hfp]

theorem readAll_none (f : Str → Option Rec) (ps : List Str) (p : Str)
    (hp : p ∈ ps) (hf : f p = none) : readAll f ps = none := by
  induction ps with
  | nil => exact absurd hp (List.not_mem_nil p)
  | cons q ps ih =>
    simp only [readAll]
    rcases List.mem_cons.1 hp with he | hm
    · subst he
      rw [hf]
    · cases hfq : f q with
      | none => rfl
      | some c => rw [ih hm]

theorem substituteRunFrom_append (source replace : Str) (regexp : Bool) (s : ChanState)
    (pre es : List (Ev Str)) (h : Ev.consumerClose ∉ pre) :
    substituteRunFrom source replace regexp s (pre ++ es) =
      substituteRunFrom source replace regexp s pre ++
        substituteRunFrom source replace regexp s es := by
  induction pre with
  | nil => rfl
  | cons e pre ih =>
    have hpre : Ev.consumerClose ∉ pre := fun hm => h (List.mem_cons_of_mem e hm)
    cases e with
    | data x =>
      simp only [List.cons_append, substituteRunFrom, List.append_eq]
      by_cases hr : s.readerEnded = true
      · rw [if_pos hr, if_pos hr]
        exact ih hpre
      · rw [if_neg hr, if_neg hr, ih hpre]
        simp [List.append_assoc]
    | inputEnd =>
      simp only [List.cons_append, substituteRunFrom, List.append_eq]
      by_cases hw : s.writerClosed = true
      · rw [if_pos hw, ih hpre, List.append_assoc]
      · rw [if_neg hw, ih hpre, List.append_assoc]
    | consumerClose => exact absurd (List.mem_cons_self _ _) h

theorem substituteRunFrom_no_endInput (source replace : Str) (regexp : Bool) (s : ChanState)
    (es : List (Ev Str)) (h : Ev.consumerClose ∉ es) :
    Action.endInput ∉ substituteRunFrom source replace regexp s es := by
  induction es generalizing s with
  | nil => simp [substituteRunFrom]
  | cons e es ih =>
    have hes : Ev.consumerClose ∉ es := fun hm => h (List.mem_cons_of_mem e hm)
    cases e with
    | data x =>
      simp only [substituteRunFrom]
      by_cases hr : s.readerEnded = true
      · rw [if_pos hr]; exact ih s hes
      · rw [if_neg hr]
        intro hmem
        rcases List.mem_append.1 hmem with hA | hB
        · cases hh : substituteHandler source replace regexp x with
          | ok y => rw [hh] at hA; simp at hA
          | error er => rw [hh] at hA; simp at hA
        · exact ih s hes hB
    | inputEnd =>
      simp only [substituteRunFrom]
      by_cases hw : s.writerClosed = true
      · rw [if_pos hw]; simpa using ih s hes
      · rw [if_neg hw]
        intro hmem
        rcases List.mem_append.1 hmem with hA | hB
        · simp at hA
        · exact ih s hes hB
    | consumerClose => exact absurd (List.mem_cons_self _ _) h

theorem substituteRunFrom_ended_pushes (source replace : Str) (regexp : Bool) (s : ChanState)
    (es : List (Ev Str)) (h : s.readerEnded = true) :
    pushesOf (substituteRunFrom source replace regexp s es) = [] := by
  induction es generalizing s with
  | nil => rfl
  | cons e es ih =>
    cases e with
    | data x => simp only [substituteRunFrom]; rw [if_pos h]; exact ih s h
    | inputEnd =>
      simp only [substituteRunFrom]
      rw [pushesOf_append]
      by_cases hw : s.writerClosed = true
      · rw [if_pos hw, pushesOf_nil, List.nil_append]
        exact ih s h
      · rw [if_neg hw]
        have he : pushesOf [Action.endOutput] = [] := rfl
        rw [he, List.nil_append]
        exact ih s h
    | consumerClose =>
      simp only [substituteRunFrom]
      rw [pushesOf_logInfo, pushesOf_endInput]
      exact ih closedChan rfl

theorem globLoop_pushes_closed (wait : Nat) (files : List Rec) :
    ∀ k : Nat, pushesOf (globLoop wait files (some k)) = files.take k := by
  induction files with
  | nil => intro k; simp [globLoop, pushesOf]
  | cons f files ih =>
    intro k
    cases k with
    | zero => rfl
    | succ k =>
      show pushesOf (Action.push f :: Action.sleep wait :: globLoop wait files (some k)) =
        f :: files.take k
      rw [pushesOf_push, pushesOf_sleep, ih k]

theorem globLoop_pushes_open (wait : Nat) (files : List Rec) :
    pushesOf (globLoop wait files none) = files := by
  induction files with
  | nil => rfl
  | cons f files ih =>
    show pushesOf (Action.push f :: Action.sleep wait :: globLoop wait files none) = f :: files
    rw [pushesOf_push, pushesOf_sleep, ih]

/-- Claim C1: after a stage observes that its output channel was closed by
the consumer, it never pushes another record on that output, and it
propagates the closure upstream by ending its own input exactly once.  For
substitute: on any event sequence with one consumer-close event the trace
decomposes into the actions before the close, the close handler (log, set
writerClosed, reader.end), and the actions from the closed state, which
contain no push; reader.end is emitted exactly once.  For globRead, a
producer with no input channel: the loop checks the writerClosed flag
before each push and breaks once it is set, so when the flag turns true
after k iterations exactly the first k pre-read files are pushed and
nothing after. -/
theorem claim1_close_propagation :
    (∀ (source replace : Str) (regexp : Bool) (pre post : List (Ev Str)),
      Ev.consumerClose ∉ pre → Ev.consumerClose ∉ post →
      substituteRun source replace regexp (pre ++ Ev.consumerClose :: post) =
        substituteRunFrom source replace regexp chanInit pre ++
          Action.logInfo :: Action.endInput ::
            substituteRunFrom source replace regexp closedChan post ∧
      (substituteRun source replace regexp (pre ++ Ev.consumerClose :: post)).count
          Action.endInput = 1 ∧
      pushesOf (substituteRunFrom source replace regexp closedChan post) = []) ∧
    (∀ (wait : Nat) (files : List Rec) (k : Nat),
      pushesOf (globLoop wait files (some k)) = files.take k) := by
  constructor
  · intro source replace regexp pre post hpre hpost
    have hdec : substituteRun source replace regexp (pre ++ Ev.consumerClose :: post) =
        substituteRunFrom source replace regexp chanInit pre ++
          Action.logInfo :: Action.endInput ::
            substituteRunFrom source replace regexp closedChan post := by
      unfold substituteRun
      rw [substituteRunFrom_append source replace regexp chanInit pre
        (Ev.consumerClose :: post) hpre]
      rfl
    refine ⟨hdec, ?_, substituteRunFrom_ended_pushes source replace regexp closedChan post rfl⟩
    rw [hdec, List.count_append]
    have h1 : (substituteRunFrom source replace regexp chanInit pre).count Action.endInput = 0 :=
      List.count_eq_zero.2 (substituteRunFrom_no_endInput source replace regexp chanInit pre hpre)
    have h2 : (substituteRunFrom source replace regexp closedChan post).count Action.endInput = 0 :=
      List.count_eq_zero.2 (substituteRunFrom_no_endInput source replace regexp closedChan post hpost)
    simp [h1, h2, List.count_cons]
  · intro wait files k
    exact globLoop_pushes_closed wait files k

/-- Instance of C1 at concrete inputs: one data record before the close, an
input-end event after it, and a two-file globRead loop whose writer closes
after one iteration. -/
theorem claim1_close_propagation_witness :
    substituteRun ['a'] ['b'] false ([Ev.data ['a']] ++ Ev.consumerClose :: [Ev.inputEnd]) =
      substituteRunFrom ['a'] ['b'] false chanInit [Ev.data ['a']] ++
        Action.logInfo :: Action.endInput ::
          substituteRunFrom ['a'] ['b'] false closedChan [Ev.inputEnd] ∧
    (substituteRun ['a'] ['b'] false
      ([Ev.data ['a']] ++ Ev.consumerClose :: [Ev.inputEnd])).count Action.endInput = 1 ∧
    pushesOf (substituteRunFrom ['a'] ['b'] false closedChan [Ev.inputEnd]) = [] ∧
    pushesOf (globLoop 0 [Rec.str ['x'], Rec.str ['y']] (some 1)) =
      [Rec.str ['x'], Rec.str ['y']].take 1 := by
  have h := claim1_close_propagation.1 ['a'] ['b'] false [Ev.data ['a']] [Ev.inputEnd]
    (by decide) (by decide)
  exact ⟨h.1, h.2.1, h.2.2, claim1_close_propagation.2 0 [Rec.str ['x'], Rec.str ['y']] 1⟩

/-- Claim C2: an incoming buffer that fails to parse as a ZIP archive or as
a gzip stream only affects that one record: the handler logs an error (and
the exception), emits no push and no end signal, and the stage's trace
continues with the remaining events from an unchanged state. -/
theorem claim2_expansion_failure_isolated :
    (∀ (parse : Buf → Option (List Buf)) (decode : Buf → Str) (asBuffer : Bool) (d : Buf),
      parse d = none →
      unzipHandle parse decode asBuffer d = [Action.logError, Action.logDebug] ∧
      ∀ (s : ChanState) (post : List (Ev Buf)), s.readerEnded = false →
        unzipRunFrom parse decode asBuffer s (Ev.data d :: post) =
          Action.logError :: Action.logDebug :: unzipRunFrom parse decode asBuffer s post) ∧
    (∀ (gz : Buf → Option Buf) (decode : Buf → Str) (asBuffer : Bool) (d : Buf),
      gz d = none →
      gunzipHandle gz decode asBuffer d = [Action.logError, Action.logDebug] ∧
      ∀ (s : ChanState) (post : List (Ev Buf)), s.readerEnded = false →
        gunzipRunFrom gz decode asBuffer s (Ev.data d :: post) =
          Action.logError :: Action.logDebug :: gunzipRunFrom gz decode asBuffer s post) := by
  constructor
  · intro parse decode asBuffer d h
    have hh : unzipHandle parse decode asBuffer d = [Action.logError, Action.logDebug] := by
      simp [unzipHandle, h]
    refine ⟨hh, ?_⟩
    intro s post hs
    simp only [unzipRunFrom]
    rw [if_neg (by rw [hs]; exact Bool.false_ne_true), hh]
    rfl
  · intro gz decode asBuffer d h
    have hh : gunzipHandle gz decode asBuffer d = [Action.logError, Action.logDebug] := by
      simp [gunzipHandle, h]
    refine ⟨hh, ?_⟩
    intro s post hs
    simp only [gunzipRunFrom]
    rw [if_neg (by rw [hs]; exact Bool.false_ne_true), hh]
    rfl

/-- Instance of C2 at concrete inputs: a parser and a gunzip that reject the
one-byte buffer, with an input-end event still to be processed. -/
theorem claim2_expansion_failure_isolated_witness :
    unzipHandle noZip decodeNil false [0] = [Action.logError, Action.logDebug] ∧
    unzipRunFrom noZip decodeNil false chanInit [Ev.data [0], Ev.inputEnd] =
      Action.logError :: Action.logDebug ::
        unzipRunFrom noZip decodeNil false chanInit [Ev.inputEnd] ∧
    gunzipHandle noGz decodeNil false [0] = [Action.logError, Action.logDebug] ∧
    gunzipRunFrom noGz decodeNil false chanInit [Ev.data [0], Ev.inputEnd] =
      Action.logError :: Action.logDebug ::
        gunzipRunFrom noGz decodeNil false chanInit [Ev.inputEnd] := by
  have h1 := claim2_expansion_failure_isolated.1 noZip decodeNil false [0] rfl
  have h2 := claim2_expansion_failure_isolated.2 noGz decodeNil false [0] rfl
  exact ⟨h1.1, h1.2 chanInit [Ev.inputEnd] rfl, h2.1, h2.2 chanInit [Ev.inputEnd] rfl⟩

/-- Claim C4 fails on the code in regexp mode: on the record abc with source
a and replacement b the handler throws a TypeError (String.prototype.
replaceAll rejects a RegExp constructed without the global flag, and the
source builds new RegExp(source) with no flags), so the stage pushes nothing
for the record instead of emitting the replaced text bbc that literal-mode
replacement of every occurrence would produce. -/
theorem claim4_regexp_mode_throws :
    substituteHandler ['a'] ['b'] true ['a', 'b', 'c'] = Except.error JsErr.typeError ∧
    pushesOf (substituteRun ['a'] ['b'] true [Ev.data ['a', 'b', 'c']]) = [] ∧
    jsReplaceAll ['a'] ['b'] ['a', 'b', 'c'] = ['b', 'b', 'c'] :=
  ⟨rfl, by decide, by decide⟩

/-- Claim C9: for a file-name record consumed by getFileFromFolder, when the
name resolved against the base directory denotes a readable file exactly one
record with the file's full text is pushed and processing continues, and
when the read rejects the failure is not caught per record: the invocation
stops with the read error, having pushed nothing for that record. -/
theorem claim9_file_fetch (fs : Str → Option Str) (folderPath name : Str) (s : ChanState)
    (es : List (Ev Str)) (h : s.readerEnded = false) :
    (∀ file, fs (joinP (resolveP folderPath) name) = some file →
      getFileRunFrom fs folderPath s (Ev.data name :: es) =
        (Action.logInfo :: Action.push (Rec.str file) :: (getFileRunFrom fs folderPath s es).1,
         (getFileRunFrom fs folderPath s es).2)) ∧
    (fs (joinP (resolveP folderPath) name) = none →
      getFileRunFrom fs folderPath s (Ev.data name :: es) =
        ([Action.logInfo], some JsErr.readError)) := by
  constructor
  · intro file hf
    simp only [getFileRunFrom]
    rw [if_neg (by rw [h]; exact Bool.false_ne_true), hf]
  · intro hf
    simp only [getFileRunFrom]
    rw [if_neg (by rw [h]; exact Bool.false_ne_true), hf]

/-- Instance of C9 at concrete inputs: in a folder holding exactly the file
f, fetching f pushes its content and fetching g rejects fatally. -/
theorem claim9_file_fetch_witness :
    getFileRunFrom folderA ['/', 'd'] chanInit [Ev.data ['f']] =
      (Action.logInfo :: Action.push (Rec.str ['A']) ::
        (getFileRunFrom folderA ['/', 'd'] chanInit []).1,
       (getFileRunFrom folderA ['/', 'd'] chanInit []).2) ∧
    getFileRunFrom folderA ['/', 'd'] chanInit [Ev.data ['g']] =
      ([Action.logInfo], some JsErr.readError) := by
  have h1 := claim9_file_fetch folderA ['/', 'd'] ['f'] chanInit [] rfl
  have h2 := claim9_file_fetch folderA ['/', 'd'] ['g'] chanInit [] rfl
  exact ⟨h1.1 ['A'] (by decide), h2.2 (by decide)⟩

theorem rfHead_pushes (mem : Nat → Nat) (maxMemory pauseMs i : Nat) :
    pushesOf (rfHead mem maxMemory pauseMs i) = [] := by
  unfold rfHead
  rw [pushesOf_logInfo, pushesOf_sample]
  split <;> rfl

theorem rfHead_no_endOutput (mem : Nat → Nat) (maxMemory pauseMs i : Nat) :
    Action.endOutput ∉ rfHead mem maxMemory pauseMs i := by
  unfold rfHead
  split <;> simp

theorem rfBlocks_pushes (mem : Nat → Nat) (maxMemory pauseMs : Nat) :
    ∀ (entries : List (Str × Option Str)) (i : Nat),
      pushesOf (rfBlocks mem maxMemory pauseMs entries i) =
        entries.map (fun e => Rec.str (e.2.getD [])) := by
  intro entries
  induction entries with
  | nil => intro i; rfl
  | cons e rest ih =>
    intro i
    show pushesOf (rfHead mem maxMemory pauseMs i ++
      Action.push (Rec.str (e.2.getD [])) :: rfBlocks mem maxMemory pauseMs rest (i + 1)) = _
    rw [pushesOf_append, rfHead_pushes, pushesOf_push, ih (i + 1), List.nil_append,
      List.map_cons]

theorem rfBlocks_no_endOutput (mem : Nat → Nat) (maxMemory pauseMs : Nat) :
    ∀ (entries : List (Str × Option Str)) (i : Nat),
      Action.endOutput ∉ rfBlocks mem maxMemory pauseMs entries i := by
  intro entries
  induction entries with
  | nil => intro i; simp [rfBlocks]
  | cons e rest ih =>
    intro i hm
    rcases List.mem_append.1 hm with hA | hB
    · exact rfHead_no_endOutput mem maxMemory pauseMs i hA
    · rcases List.mem_cons.1 hB with hc | hrest
      · exact Action.noConfusion hc
      · exact ih (i + 1) hrest

theorem readFolderLoop_shape (mem : Nat → Nat) (maxMemory pauseMs : Nat) :
    ∀ (entries : List (Str × Option Str)) (i : Nat),
      (∀ e ∈ entries, e.2 ≠ none) →
      readFolderLoop mem maxMemory pauseMs entries i none =
        (rfBlocks mem maxMemory pauseMs entries i, true) := by
  intro entries
  induction entries with
  | nil => intro i _; rfl
  | cons e rest ih =>
    intro i h
    have he : e.2 ≠ none := h e (List.mem_cons_self e rest)
    cases he2 : e.2 with
    | none => exact absurd he2 he
    | some txt =>
      have ht := ih (i + 1) (fun q hq => h q (List.mem_cons_of_mem e hq))
      show rfEntry mem maxMemory pauseMs i e
          (readFolderLoop mem maxMemory pauseMs rest (i + 1) none) =
        (rfBlocks mem maxMemory pauseMs (e :: rest) i, true)
      rw [ht]
      simp [rfEntry, rfBlocks, he2]

/-- Claim C3: globRead resolves the pattern once and reads every matched
file into memory in its setup phase, which by construction precedes the
deferred loop (globReadSetup produces the contents the loop is given); when
every matched file is readable the setup succeeds, and the deferred run,
when the consumer never closes the output, pushes exactly one record per
matched file, in match order, whose content is that file's verbatim text or
raw bytes as configured. -/
theorem claim3_globread_emits_all :
    (∀ (fs : FS) (pattern : Str) (binary : Bool),
      (∀ p ∈ fs.globMatch pattern, fs.readF binary p ≠ none) →
      globReadSetup fs pattern binary ≠ none) ∧
    (∀ (fs : FS) (pattern : Str) (binary : Bool) (wait : Nat) (files : List Rec),
      globReadSetup fs pattern binary = some files →
      files.map some = (fs.globMatch pattern).map (fs.readF binary) ∧
      pushesOf (globReadTrace fs pattern binary wait true none) = files) := by
  constructor
  · intro fs pattern binary h
    exact readAll_some (fs.readF binary) (fs.globMatch pattern) h
  · intro fs pattern binary wait files h
    refine ⟨readAll_map (fs.readF binary) (fs.globMatch pattern) files h, ?_⟩
    unfold globReadTrace
    rw [h]
    rw [pushesOf_append, pushesOf_append, pushesOf_append]
    have hA : pushesOf (if (fs.globMatch pattern).isEmpty then [Action.logWarn] else []) = [] := by
      split <;> rfl
    have hE : pushesOf (if true then [Action.endOutput] else []) = [] := rfl
    rw [hA, hE, pushesOf_mapLogInfo, globLoop_pushes_open]
    simp

/-- Instance of C3 at a concrete world with two matched files. -/
theorem claim3_globread_emits_all_witness :
    globReadSetup fsTwo ['p'] false ≠ none ∧
    [Rec.str ['A'], Rec.str ['B']].map some = (fsTwo.globMatch ['p']).map (fsTwo.readF false) ∧
    pushesOf (globReadTrace fsTwo ['p'] false 0 true none) = [Rec.str ['A'], Rec.str ['B']] := by
  have h1 := claim3_globread_emits_all.1 fsTwo ['p'] false (by decide)
  have h2 := claim3_globread_emits_all.2 fsTwo ['p'] false 0
    [Rec.str ['A'], Rec.str ['B']] (by decide)
  exact ⟨h1, h2.1, h2.2⟩

/-- Claim C8: when the pattern matches zero files, globRead logs a warning
(and no error), pushes nothing, and ends its output immediately (with the
source's default closeOnEnd = true), whatever the consumer does. -/
theorem claim8_zero_matches (fs : FS) (pattern : Str) (binary : Bool) (wait : Nat)
    (closedAt : Option Nat) (h : fs.globMatch pattern = []) :
    globReadTrace fs pattern binary wait true closedAt = [Action.logWarn, Action.endOutput] := by
  unfold globReadTrace globReadSetup
  rw [h]
  simp [readAll, globLoop]

/-- Instance of C8 at a concrete world whose pattern matches nothing. -/
theorem claim8_zero_matches_witness :
    globReadTrace fsNone ['p'] false 0 true none = [Action.logWarn, Action.endOutput] :=
  claim8_zero_matches fsNone ['p'] false 0 none rfl

/-- Claim C10: when some matched file cannot be read, globRead's eager setup
itself rejects, so the deferred start action never runs: nothing is pushed,
no end signal is sent on the output, and no warning is logged (the zero-match
warning cannot fire since the failing path was matched). -/
theorem claim10_setup_failure (fs : FS) (pattern : Str) (binary : Bool) (wait : Nat)
    (closeOnEnd : Bool) (closedAt : Option Nat) (p : Str)
    (hp : p ∈ fs.globMatch pattern) (hr : fs.readF binary p = none) :
    globReadSetup fs pattern binary = none ∧
    pushesOf (globReadTrace fs pattern binary wait closeOnEnd closedAt) = [] ∧
    Action.endOutput ∉ globReadTrace fs pattern binary wait closeOnEnd closedAt ∧
    Action.logWarn ∉ globReadTrace fs pattern binary wait closeOnEnd closedAt := by
  have hsetup : globReadSetup fs pattern binary = none :=
    readAll_none (fs.readF binary) (fs.globMatch pattern) p hp hr
  have hne : (fs.globMatch pattern).isEmpty = false := by
    cases hgm : fs.globMatch pattern with
    | nil => rw [hgm] at hp; exact absurd hp (List.not_mem_nil p)
    | cons q qs => rfl
  refine ⟨hsetup, ?_, ?_, ?_⟩ <;>
    · unfold globReadTrace
      rw [hsetup]
      simp [hne, pushesOf_append, pushesOf_mapLogInfo, pushesOf, List.mem_map]

/-- Instance of C10 at a concrete world with one matched but unreadable
file. -/
theorem claim10_setup_failure_witness :
    globReadSetup fsBad ['p'] false = none ∧
    pushesOf (globReadTrace fsBad ['p'] false 0 true none) = [] ∧
    Action.endOutput ∉ globReadTrace fsBad ['p'] false 0 true none ∧
    Action.logWarn ∉ globReadTrace fsBad ['p'] false 0 true none :=
  claim10_setup_failure fsBad ['p'] false 0 true none ['a'] (by decide) rfl

/-- Claim C6 as frozen is false on the code: with the configured threshold 3
and a sampled usage of 4 bytes — which exceeds a threshold of 3 if the
threshold were expressed in bytes — the run performs no pause, because the
source compares heapUsed against maxMemory multiplied by 1024 * 1024 * 1024:
the configured threshold is a number of gibibytes, not of bytes. -/
theorem claim6_counterexample :
    Action.sleep 5000 ∉ (readFolderTrace [(['f'], some ['x'])] memFour 3 5000 none).1 ∧
    4 > 3 := by
  decide

/-- Claim C6 (amended): before each file is processed the process memory
usage is sampled, and emission pauses for the configured pause duration
exactly when the sample exceeds the configured threshold expressed in
gibibytes (the configured number times 1024 * 1024 * 1024 bytes); under no
consumer close and readable entries, the whole trace is the concatenation of
the per-file blocks, each carrying its sample and conditional pause before
its push. -/
theorem claim6_memory_gate_amended :
    (∀ (mem : Nat → Nat) (maxMemory pauseMs i : Nat),
      (Action.sleep pauseMs ∈ rfHead mem maxMemory pauseMs i ↔
        mem i > maxMemory * (1024 * 1024 * 1024)) ∧
      Action.sample (mem i) ∈ rfHead mem maxMemory pauseMs i) ∧
    (∀ (entries : List (Str × Option Str)) (mem : Nat → Nat) (maxMemory pauseMs : Nat),
      (∀ e ∈ entries, e.2 ≠ none) →
      (readFolderTrace entries mem maxMemory pauseMs none).1 =
        rfBlocks mem maxMemory pauseMs entries 0 ++ [Action.endOutput]) := by
  constructor
  · intro mem maxMemory pauseMs i
    constructor
    · unfold rfHead
      by_cases hgt : mem i > maxMemory * (1024 * 1024 * 1024)
      · simp [hgt]
      · simp [hgt]
    · unfold rfHead
      simp
  · intro entries mem maxMemory pauseMs h
    unfold readFolderTrace
    rw [readFolderLoop_shape mem maxMemory pauseMs entries 0 h]
    rfl

/-- Instance of the amended C6 claim: a probe reporting 4 GiB trips the
3 GiB gate, its sample appears in the head block, and a one-file run's trace
is its block followed by the end signal. -/
theorem claim6_memory_gate_amended_witness :
    (Action.sleep 7 ∈ rfHead memBig 3 7 0 ↔ memBig 0 > 3 * (1024 * 1024 * 1024)) ∧
    Action.sample (memBig 0) ∈ rfHead memBig 3 7 0 ∧
    (readFolderTrace [(['f'], some ['x'])] memZero 3 7 none).1 =
      rfBlocks memZero 3 7 [(['f'], some ['x'])] 0 ++ [Action.endOutput] := by
  have h1 := claim6_memory_gate_amended.1 memBig 3 7 0
  exact ⟨h1.1, h1.2,
    claim6_memory_gate_amended.2 [(['f'], some ['x'])] memZero 3 7 (by decide)⟩

/-- Claim C7 as frozen is false on the code: for a directory whose recursive
enumeration contains the subdirectory d next to the readable file d/f (Node's
recursive readdir lists directories as entries, and readFile on a directory
rejects with EISDIR), the run pushes no record at all, aborts, and never
signals end — instead of emitting one record for the contained file d/f and
ending. -/
theorem claim7_counterexample :
    pushesOf (readFolderTrace [(['d'], none), (['d', '/', 'f'], some ['h', 'i'])]
      memZero 3 5000 none).1 = [] ∧
    Action.endOutput ∉ (readFolderTrace [(['d'], none), (['d', '/', 'f'], some ['h', 'i'])]
      memZero 3 5000 none).1 ∧
    (readFolderTrace [(['d'], none), (['d', '/', 'f'], some ['h', 'i'])]
      memZero 3 5000 none).2 = false := by
  decide

/-- Claim C7 (amended): for every accessible directory whose recursive
enumeration consists of readable files only (no subdirectory entries and no
unreadable files), and whose consumer never closes, readFolder emits exactly
one record per enumerated file, in enumeration order, holding the file's
content read as text, and signals end on its output exactly once, at the end
of the trace, when the full enumeration has completed. -/
theorem claim7_readfolder_amended (entries : List (Str × Option Str)) (mem : Nat → Nat)
    (maxMemory pauseMs : Nat) (h : ∀ e ∈ entries, e.2 ≠ none) :
    (readFolderTrace entries mem maxMemory pauseMs none).2 = true ∧
    pushesOf (readFolderTrace entries mem maxMemory pauseMs none).1 =
      entries.map (fun e => Rec.str (e.2.getD [])) ∧
    ((readFolderTrace entries mem maxMemory pauseMs none).1).count Action.endOutput = 1 ∧
    ((readFolderTrace entries mem maxMemory pauseMs none).1).getLast? =
      some Action.endOutput := by
  have hshape := readFolderLoop_shape mem maxMemory pauseMs entries 0 h
  have htr : readFolderTrace entries mem maxMemory pauseMs none =
      (rfBlocks mem maxMemory pauseMs entries 0 ++ [Action.endOutput], true) := by
    unfold readFolderTrace
    rw [hshape]
    rfl
  rw [htr]
  refine ⟨rfl, ?_, ?_, ?_⟩
  · show pushesOf (rfBlocks mem maxMemory pauseMs entries 0 ++ [Action.endOutput]) = _
    rw [pushesOf_append, rfBlocks_pushes]
    have hE : pushesOf [Action.endOutput] = [] := rfl
    rw [hE, List.append_nil]
  · show (rfBlocks mem maxMemory pauseMs entries 0 ++ [Action.endOutput]).count
      Action.endOutput = 1
    rw [List.count_append,
      List.count_eq_zero.2 (rfBlocks_no_endOutput mem maxMemory pauseMs entries 0)]
    rfl
  · exact List.getLast?_concat _

/-- Instance of the amended C7 claim at a one-file directory. -/
theorem claim7_readfolder_amended_witness :
    (readFolderTrace [(['f'], some ['h', 'i'])] memZero 3 7 none).2 = true ∧
    pushesOf (readFolderTrace [(['f'], some ['h', 'i'])] memZero 3 7 none).1 =
      [Rec.str ['h', 'i']] ∧
    ((readFolderTrace [(['f'], some ['h', 'i'])] memZero 3 7 none).1).count
      Action.endOutput = 1 ∧
    ((readFolderTrace [(['f'], some ['h', 'i'])] memZero 3 7 none).1).getLast? =
      some Action.endOutput :=
  claim7_readfolder_amended [(['f'], some ['h', 'i'])] memZero 3 7 (by decide)

/-- Claim C5 (amended): every text record processed by envsub produces
exactly one output record (one push per delivered data event); a record in
which no placeholder of a variable defined with a non-empty value occurs —
in particular a record whose placeholders all name undefined variables — is
passed through as literal text unchanged; a placeholder of a variable
defined with a non-empty value is replaced by the ECMA-262 GetSubstitution
text of the value (the placeholder being the matched text and the
surrounding record the context), which is exactly the variable's current
value whenever the value contains no dollar character (stated for a
single-variable environment with no further occurrence of the placeholder,
substitutions being applied per variable sequentially in key order). -/
theorem claim5_envsub_amended :
    (∀ (env : List (Str × Str)) (x : Str),
      envsubRunFrom env chanInit [Ev.data x] =
        [Action.logInfo, Action.push (Rec.str (envsubHandler env x))]) ∧
    (∀ (env : List (Str × Str)) (x : Str),
      (∀ kv ∈ env, kv.2 ≠ [] → occursIn (placeholder kv.1) x = false) →
      envsubHandler env x = x) ∧
    (∀ k v p s : Str, v ≠ [] → '$' ∉ p → occursIn (placeholder k) s = false →
      envsubHandler [(k, v)] (p ++ placeholder k ++ s) =
        p ++ getSubstitution (placeholder k) p s v ++ s) ∧
    (∀ k v p s : Str, v ≠ [] → '$' ∉ v → '$' ∉ p → occursIn (placeholder k) s = false →
      envsubHandler [(k, v)] (p ++ placeholder k ++ s) = p ++ v ++ s) :=
  ⟨fun _ _ => rfl,
   fun env x h => envsubHandler_untouched env x h,
   fun k v p s hv hp hs => envsubHandler_replaces k v p s hv hp hs,
   fun k v p s hv hvd hp hs => envsubHandler_replaces_literal k v p s hv hvd hp hs⟩

/-- Instance of the amended C5 claim at concrete inputs: a record with no
placeholder is unchanged; a value made of a dollar sign and an ampersand is
inserted as its GetSubstitution text (the matched placeholder itself), not
as the raw value; and a dollar-free value is inserted verbatim. -/
theorem claim5_envsub_amended_witness :
    envsubRunFrom [(['H'], ['v'])] chanInit [Ev.data ['z']] =
      [Action.logInfo, Action.push (Rec.str (envsubHandler [(['H'], ['v'])] ['z']))] ∧
    envsubHandler [(['H'], ['v'])] ['z'] = ['z'] ∧
    envsubHandler [(['H'], ['$', '&'])] (['a'] ++ placeholder ['H'] ++ ['b']) =
      ['a'] ++ getSubstitution (placeholder ['H']) ['a'] ['b'] ['$', '&'] ++ ['b'] ∧
    envsubHandler [(['H'], ['v'])] (['a'] ++ placeholder ['H'] ++ ['b']) =
      ['a'] ++ ['v'] ++ ['b'] :=
  ⟨claim5_envsub_amended.1 [(['H'], ['v'])] ['z'],
   claim5_envsub_amended.2.1 [(['H'], ['v'])] ['z'] (by decide),
   claim5_envsub_amended.2.2.1 ['H'] ['$', '&'] ['a'] ['b'] (by decide) (by decide) (by decide),
   claim5_envsub_amended.2.2.2 ['H'] ['v'] ['a'] ['b'] (by decide) (by decide) (by decide)
     (by decide)⟩

/-- Claim C5 as frozen is false on the code: the variable FOO is defined
with the empty-string value, yet envsub leaves the placeholder as literal
text (the source guards each substitution with a truthiness test on the
value, and the empty string is falsy), so the output still contains the
placeholder of a defined variable instead of its (empty) value. -/
theorem claim5_counterexample :
    envsubHandler [(['F', 'O', 'O'], [])] (placeholder ['F', 'O', 'O']) =
      placeholder ['F', 'O', 'O'] ∧
    occursIn (placeholder ['F', 'O', 'O'])
      (envsubHandler [(['F', 'O', 'O'], [])] (placeholder ['F', 'O', 'O'])) = true ∧
    placeholder ['F', 'O', 'O'] ≠ [] := by
  decide

end FileUtils
